import Mathlib

/-!
Verification development for the mini-svelte single-file compiler
(`src/app.js`).  The compiler has three stages — `parse`, `analyse`,
`generate` — plus the change-batching runtime embedded in the emitted
module text.  Each stage is shallowly embedded below: string-building
is modelled by structured instruction lists carrying exactly the data
the source interpolates, the host expression parser (acorn) and the
scope resolver (periscopic) are modelled as oracles or by the scope
semantics the source relies on, and the emitted runtime's control flow
is modelled as an explicit state machine.
-/

/-- Mini expression AST mirroring the estree shapes the compiler
inspects: `Identifier`, `Literal`, `BinaryExpression`,
`CallExpression`, `ArrowFunctionExpression` (expression-bodied, its
parameters are the scope it introduces), `AssignmentExpression`,
`UpdateExpression`, `SequenceExpression` and array expressions /
patterns. -/
inductive JSExpr where
  | ident (name : String)
  | lit (n : Int)
  | strlit (s : String)
  | binop (op : String) (left right : JSExpr)
  | call (callee : JSExpr) (args : List JSExpr)
  | arrow (params : List String) (body : JSExpr)
  | assign (left right : JSExpr)
  | update (op : String) (argument : JSExpr)
  | seq (exprs : List JSExpr)
  | array (elems : List JSExpr)

/-- Mini statement AST: `VariableDeclaration` (single declarator),
`ExpressionStatement` and `LabeledStatement`. -/
inductive JSStmt where
  | varDecl (kind : String) (name : String) (init : JSExpr)
  | exprStmt (e : JSExpr)
  | labeled (label : String) (body : JSStmt)

mutual

/-- The dependency walk of `analyse` (estree-walker over the right-hand
side of a reactive declaration, pushing the name of every `Identifier`
node it enters, in walk order; arrow parameters are identifier nodes
and are visited too). -/
def walkIdents : JSExpr → List String
  | .ident n => [n]
  | .lit _ => []
  | .strlit _ => []
  | .binop _ l r => walkIdents l ++ walkIdents r
  | .call f args => walkIdents f ++ walkIdentsL args
  | .arrow ps b => ps ++ walkIdents b
  | .assign l r => walkIdents l ++ walkIdents r
  | .update _ a => walkIdents a
  | .seq es => walkIdentsL es
  | .array es => walkIdentsL es

def walkIdentsL : List JSExpr → List String
  | [] => []
  | e :: es => walkIdents e ++ walkIdentsL es

end

mutual

/-- Spec-side notion, for refinement comparisons: every identifier
referenced anywhere inside an expression, not just at top level
(spec section 4.2 step 4). -/
def specIdents : JSExpr → List String
  | .ident n => [n]
  | .lit _ => []
  | .strlit _ => []
  | .binop _ l r => specIdents l ++ specIdents r
  | .call f args => specIdents f ++ specIdentsL args
  | .arrow ps b => ps ++ specIdents b
  | .assign l r => specIdents l ++ specIdents r
  | .update _ a => specIdents a
  | .seq es => specIdentsL es
  | .array es => specIdentsL es

def specIdentsL : List JSExpr → List String
  | [] => []
  | e :: es => specIdents e ++ specIdentsL es

end

/-- The file-local `extract_names` helper of `src/app.js` (lines
506-517): it recurses only through `Identifier` and
`BinaryExpression` nodes and returns the accumulated names in
left-to-right push order; every other node contributes nothing. -/
def extract_names : JSExpr → List String
  | .ident n => [n]
  | .binop _ l r => extract_names l ++ extract_names r
  | _ => []

mutual

/-- periscopic's `extract_names` over an assignment target: the names
bound by the left-hand side (an identifier, or a destructuring
pattern whose elements are extracted recursively; a default-value
pattern extracts its left side). -/
def extractNamesP : JSExpr → List String
  | .ident n => [n]
  | .array es => extractNamesPL es
  | .assign l _ => extractNamesP l
  | _ => []

def extractNamesPL : List JSExpr → List String
  | [] => []
  | e :: es => extractNamesP e ++ extractNamesPL es

end

/-- Root-scope declarations of a script: the names declared by its
top-level variable declarations (what periscopic records in
`rootScope.declarations`; labeled statements declare nothing). -/
def topLevelDecls (p : List JSStmt) : List String :=
  p.filterMap fun s =>
    match s with
    | .varDecl _ n _ => some n
    | _ => none

/-- periscopic's `find_owner` over a scope chain (innermost scope
first): index of the first scope declaring the name, `none` when the
name is declared nowhere in the chain (a free / global identifier). -/
def findOwner (chain : List (List String)) (n : String) : Option Nat :=
  match chain with
  | [] => none
  | s :: rest =>
    if n ∈ s then some 0 else (findOwner rest n).map (· + 1)

/-- The test `currentScope.find_owner(name) === rootScope` of the
source, for a chain whose last element is the root scope: the first
scope declaring the name is the root scope. -/
def ownerIsRoot (chain : List (List String)) (n : String) : Bool :=
  match chain with
  | [] => false
  | [root] => root.contains n
  | s :: rest => if n ∈ s then false else ownerIsRoot rest n

/-- Insertion into a JS `Set` modelled as a list: appends the element
unless already present (JS sets preserve insertion order). -/
def twAdd (acc : List String) (n : String) : List String :=
  if n ∈ acc then acc else acc ++ [n]

/-- `Array.from(new Set(l))`: first-occurrence deduplication in
insertion order. -/
def insOrderDedup (l : List String) : List String :=
  l.foldl twAdd []

/-- The notification call the generate rewrite inserts:
acorn's parse of the source text update(JSON.stringify(names)) —
a call of the module's change-notification entry point with an array
of string literals holding the mutated names. -/
def updateCall (names : List String) : JSExpr :=
  .call (.ident ("update")) [.array (names.map .strlit)]

mutual

/-- The script rewrite walk of `generate` (src/app.js lines 370-403).
At every `UpdateExpression` / `AssignmentExpression` it extracts the
target names (periscopic `extract_names`), keeps those whose owner is
the root scope and which appear in `willUseInTemplate`, and when the
filtered list is non-empty replaces the node by a
`SequenceExpression` of the original node followed by the notification
call, skipping the replaced subtree (so nothing inside it is
rewritten); otherwise the walk descends into the children.  The
scope chain is threaded exactly as the source does with
`map` / `find_owner`: an arrow function pushes its parameter scope. -/
def rewriteE (wu : List String) (chain : List (List String)) : JSExpr → JSExpr
  | .ident n => .ident n
  | .lit n => .lit n
  | .strlit s => .strlit s
  | .binop op l r => .binop op (rewriteE wu chain l) (rewriteE wu chain r)
  | .call f args => .call (rewriteE wu chain f) (rewriteL wu chain args)
  | .arrow ps b => .arrow ps (rewriteE wu (ps :: chain) b)
  | .assign l r =>
    let names := (extractNamesP l).filter fun n =>
      ownerIsRoot chain n && wu.contains n
    if names.isEmpty then .assign (rewriteE wu chain l) (rewriteE wu chain r)
    else .seq [.assign l r, updateCall names]
  | .update op a =>
    let names := (extractNamesP a).filter fun n =>
      ownerIsRoot chain n && wu.contains n
    if names.isEmpty then .update op (rewriteE wu chain a)
    else .seq [.update op a, updateCall names]
  | .seq es => .seq (rewriteL wu chain es)
  | .array es => .array (rewriteL wu chain es)

def rewriteL (wu : List String) (chain : List (List String)) : List JSExpr → List JSExpr
  | [] => []
  | e :: es => rewriteE wu chain e :: rewriteL wu chain es

end

/-- Rewrite one statement (the walk enters statements and rewrites
the expressions they contain; a variable declarator's init is an
expression child). -/
def rewriteStmt (wu : List String) (chain : List (List String)) : JSStmt → JSStmt
  | .varDecl kind n init => .varDecl kind n (rewriteE wu chain init)
  | .exprStmt e => .exprStmt (rewriteE wu chain e)
  | .labeled l b => .labeled l (rewriteStmt wu chain b)

/-- The whole-script rewrite pass: walk every top-level statement with
the root scope (computed as periscopic does from the script's
top-level declarations) at the bottom of the chain. -/
def rewriteScript (p : List JSStmt) (wu : List String) : List JSStmt :=
  p.map (rewriteStmt wu [topLevelDecls p])

/-- An `Attribute` template node: a name and the host-parsed value
expression (`name={expr}`). -/
structure Attr' where
  name : String
  value : JSExpr

/-- Template AST of the parser: `Element`, `Expression`
(interpolation) and `Text` nodes; attributes are `Attribute` nodes
attached to their element. -/
inductive TNode where
  | element (tag : String) (attributes : List Attr') (children : List TNode)
  | expression (e : JSExpr)
  | text (value : String)

/-- A `Document` as the parser produces it: the script program and the
template fragment list. -/
structure Document where
  script : List JSStmt
  html : List TNode

/-- The analyse contribution of one attribute:
`result.willUseInTemplate.add(fragment.value.name)`.  Attribute values
are restricted to bare identifiers by the design; for a non-identifier
value the source would add the undefined name, which the design leaves
outside the contract, so only identifier values contribute here. -/
def auAttr (acc : List String) (a : Attr') : List String :=
  match a.value with
  | .ident n => twAdd acc n
  | _ => acc

/-- The analyse template walk building `willUseInTemplate`
(src/app.js lines 261-278): elements recurse into children first and
attributes second, attributes add the identifier named by their value,
expressions add every name produced by the file-local
`extract_names`. -/
def auTemplate : List TNode → List String → List String
  | [], acc => acc
  | .element _ attrs children :: rest, acc =>
    auTemplate rest (attrs.foldl auAttr (auTemplate children acc))
  | .expression e :: rest, acc =>
    auTemplate rest ((extract_names e).foldl twAdd acc)
  | .text _ :: rest, acc => auTemplate rest acc

/-- A recorded reactive (derived) declaration: assignee names,
dependency names collected from the right-hand side, the labeled
statement's body and the original top-level position. -/
structure RD where
  assignees : List String
  dependencies : List String
  node : JSStmt
  index : Nat

/-- True for a top-level labeled statement with the reactive label. -/
def isDollarLabeled : JSStmt → Bool
  | .labeled l _ => l == "$"
  | _ => false

/-- Removal of the reactive statements from the script's top level
(`ast.script.body = ast.script.body.filter(...)`). -/
def stripReactive (p : List JSStmt) : List JSStmt :=
  p.filter fun s => !(isDollarLabeled s)

/-- Extraction of the reactive declarations (src/app.js lines
199-228): each top-level statement labeled with the reactive label
whose body is an expression statement assigning a simple name yields
one record: the left name as single assignee, the identifiers walked
from the right-hand side as dependencies, the body statement and the
original index.  (The source reads `body.expression.left.name`
directly, i.e. assumes exactly this shape; other shapes are
`SemanticAmbiguity` in the design.) -/
def extractRDs (p : List JSStmt) : List RD :=
  (p.enum).filterMap fun sb =>
    match sb with
    | (i, .labeled l (.exprStmt (.assign (.ident left) right))) =>
      if l == "$" then
        some ⟨[left], walkIdents right, .exprStmt (.assign (.ident left) right), i⟩
      else none
    | _ => none

mutual

/-- The willChange walk of analyse (src/app.js lines 233-259): at
every update / assignment expression, the target names owned by the
root scope or free (global) are collected; the walk then descends
into the node's children (no skip).  Arrow functions push their
parameter scope. -/
def wcExpr (chain : List (List String)) : JSExpr → List String
  | .ident _ => []
  | .lit _ => []
  | .strlit _ => []
  | .binop _ l r => wcExpr chain l ++ wcExpr chain r
  | .call f args => wcExpr chain f ++ wcExprL chain args
  | .arrow ps b => wcExpr (ps :: chain) b
  | .assign l r =>
    (extractNamesP l).filter (fun n =>
      ownerIsRoot chain n || (findOwner chain n).isNone)
      ++ wcExpr chain l ++ wcExpr chain r
  | .update _ a =>
    (extractNamesP a).filter (fun n =>
      ownerIsRoot chain n || (findOwner chain n).isNone)
      ++ wcExpr chain a
  | .seq es => wcExprL chain es
  | .array es => wcExprL chain es

def wcExprL (chain : List (List String)) : List JSExpr → List String
  | [] => []
  | e :: es => wcExpr chain e ++ wcExprL chain es

end

/-- willChange collection over a statement. -/
def wcStmt (chain : List (List String)) : JSStmt → List String
  | .varDecl _ _ init => wcExpr chain init
  | .exprStmt e => wcExpr chain e
  | .labeled _ b => wcStmt chain b

/-- The result of analyse: declared root variables, the willChange and
willUseInTemplate sets (insertion-ordered, as JS `Set`s are), the
reactive declarations and the root scope declarations used again by
generate's rewrite walk. -/
structure Analysis where
  vars : List String
  willChange : List String
  willUseInTemplate : List String
  reactiveDeclarations : List RD
  rootDecls : List String

/-- `analyse(ast)` (src/app.js lines 184-282): periscopic scope
analysis (root declarations), reactive-declaration extraction (each
assignee added to willChange in body order), removal of the labeled
statements, the mutation walk over the remaining script, and the
template walk.  The reactive label declares nothing, so the root
declarations computed before the removal equal those of the stripped
script. -/
def analyseDoc (d : Document) : Analysis :=
  let root := topLevelDecls d.script
  let rds := extractRDs d.script
  let stripped := stripReactive d.script
  let wcNames :=
    rds.map (fun rd => rd.assignees.headD ("")) ++
    (stripped.map (wcStmt [root])).flatten
  { vars := root
    willChange := wcNames.foldl twAdd []
    willUseInTemplate := auTemplate d.html []
    reactiveDeclarations := rds
    rootDecls := root }

/-- Guard of an emitted update instruction: the single-dependency form
tests membership of one name in the incoming change set, the
multi-dependency form tests any-of membership of a name array
(src/app.js lines 349-356). -/
inductive Guard where
  | single (name : String)
  | multi (names : List String)
deriving DecidableEq, Repr

/-- Denotation of an emitted guard against an incoming change set. -/
def guardHolds (g : Guard) (changed : List String) : Bool :=
  match g with
  | .single n => changed.contains n
  | .multi ns => ns.any fun m => changed.contains m

/-- The guard construction of the Expression case: the any-of form
when more than one change name remains, otherwise the degenerate
single-membership form on the first (only) name. -/
def mkGuard (changes : List String) : Guard :=
  if changes.length > 1 then .multi changes else .single (changes.getD 0 "")

/-- One generated instruction, carrying exactly the data the source
interpolates into the corresponding statement string. -/
inductive Instr where
  | createElement (v : String) (tag : String)
  | createTextLit (v : String) (value : String)
  | createTextExpr (v : String) (e : JSExpr)
  | appendChild (parent child : String)
  | removeChild (parent child : String)
  | addListener (target : String) (event : String) (handler : String)
  | removeListener (target : String) (event : String) (handler : String)
  | updateIf (g : Guard) (v : String) (e : JSExpr)

/-- The generator's accumulator: declared binding names and the three
instruction lists (here as the contribution of a subtree; the
source's pushes append in exactly this order). -/
structure Code where
  vars : List String
  create : List Instr
  update : List Instr
  destroy : List Instr

/-- Empty accumulator. -/
def Code.nil : Code := ⟨[], [], [], []⟩

/-- Concatenation of two accumulator contributions. -/
def Code.append (a b : Code) : Code :=
  ⟨a.vars ++ b.vars, a.create ++ b.create,
   a.update ++ b.update, a.destroy ++ b.destroy⟩

/-- The Attribute case of the generate walk (src/app.js lines
320-331): an attribute whose name starts with the event prefix emits
a create-instruction registering a listener of the suffix-named event
bound to the handler named by the value, and a destroy-instruction
unregistering the same event name and handler; other attributes emit
nothing.  (A non-identifier value would interpolate the undefined
name.) -/
def onPrefix : List Char := [('o'), ('n'), (':')]

/-- The event-binding attribute test `name.startsWith('on:')` and the
suffix `name.slice(3)`, over the name's characters. -/
def genAttr (parent : String) (a : Attr') : Code :=
  if a.name.toList.take 3 == onPrefix then
    let event := String.mk (a.name.toList.drop 3)
    let handler :=
      match a.value with
      | .ident h => h
      | _ => "undefined"
    ⟨[], [.addListener parent event handler], [],
     [.removeListener parent event handler]⟩
  else Code.nil

/-- The generate template walk (src/app.js lines 292-366), in the
writer formulation: each case returns the instructions it pushes, in
push order, threading the naming counter.  Elements allocate
`tag_counter`, emit create element / append / remove-from-parent and
recurse into attributes then children; text nodes allocate
`txt_counter` and emit create-text / append (no destroy, no update);
expressions allocate `txt_counter`, emit create-text / append, and
when some extracted name is in willChange, an update instruction
guarded on the deduplicated extracted names that are in
willChange. -/
def genList (wc : List String) : List TNode → String → Nat → Nat × Code
  | [], _, c => (c, Code.nil)
  | .element tag attrs children :: rest, parent, c =>
    let v := tag ++ "_" ++ toString c
    let aCode := attrs.foldl (fun co a => co.append (genAttr v a)) Code.nil
    let rch := genList wc children v (c + 1)
    let selfCode : Code :=
      ⟨v :: aCode.vars ++ rch.2.vars,
       .createElement v tag :: (aCode.create ++ rch.2.create)
         ++ [.appendChild parent v],
       aCode.update ++ rch.2.update,
       (aCode.destroy ++ rch.2.destroy) ++ [.removeChild parent v]⟩
    let rr := genList wc rest parent rch.1
    (rr.1, selfCode.append rr.2)
  | .text s :: rest, parent, c =>
    let v := "txt_" ++ toString c
    let selfCode : Code :=
      ⟨[v], [.createTextLit v s, .appendChild parent v], [], []⟩
    let rr := genList wc rest parent (c + 1)
    (rr.1, selfCode.append rr.2)
  | .expression e :: rest, parent, c =>
    let v := "txt_" ++ toString c
    let names := extract_names e
    let upd : List Instr :=
      if names.any (fun n => wc.contains n) then
        let changes := insOrderDedup (names.filter fun n => wc.contains n)
        [.updateIf (mkGuard changes) v e]
      else []
    let selfCode : Code :=
      ⟨[v], [.createTextExpr v e, .appendChild parent v], upd, []⟩
    let rr := genList wc rest parent (c + 1)
    (rr.1, selfCode.append rr.2)

/-- The reactive-declaration comparator (src/app.js lines 410-429):
negative when the second statement depends on a name the first
assigns, positive for the converse, otherwise the difference of the
original positions. -/
def rdCompare (rd1 rd2 : RD) : Int :=
  if rd1.assignees.any (fun a => rd2.dependencies.contains a) then -1
  else if rd2.assignees.any (fun a => rd1.dependencies.contains a) then 1
  else (rd1.index : Int) - (rd2.index : Int)

/-- The `Array.prototype.sort` call on the reactive declarations,
modelled as a stable comparison sort placing `a` before `b` when the
comparator is non-positive.  (For the two-element inputs the claims
exercise, a single comparison determines the result in every
spec-conforming engine.) -/
def sortRDs (l : List RD) : List RD :=
  l.insertionSort fun a b => rdCompare a b ≤ 0

/-- One emitted recomputation block (src/app.js lines 440-447): the
guard dependencies, the re-executed statement body, and the assignees
passed to the notification entry point. -/
structure Block where
  dependencies : List String
  node : JSStmt
  assignees : List String

/-- Block emitted for one reactive declaration. -/
def mkBlock (rd : RD) : Block :=
  ⟨rd.dependencies, rd.node, rd.assignees⟩

/-- The emitted recomputation routine: one block per reactive
declaration, in comparator-sorted order. -/
def emitReactive (rds : List RD) : List Block :=
  (sortRDs rds).map mkBlock

/-- Top-level run sequence of the emitted module body (src/app.js
lines 453-503): the (rewritten) script body runs, then the seeded
initial notification call with the full willChange set, and only
after that the statement assigning the lifecycle object to the
hoisted `var lifecycle` executes. -/
inductive ModItem where
  | script
  | seed (wc : List String)
  | defineLifecycle

/-- The emitted module, structurally: binding declarations (template
bindings then the sorted reactive assignees), the three lifecycle
instruction lists, the recomputation blocks, the rewritten script,
the seeded initial change set, and the module-body run sequence. -/
structure EmittedModule where
  vars : List String
  create : List Instr
  update : List Instr
  destroy : List Instr
  reactiveBlocks : List Block
  script : List JSStmt
  seed : List String
  items : List ModItem

/-- `generate(ast, analysis)` (src/app.js lines 283-504): template
walk from the mount target with counter 1, script rewrite, comparator
sort of the reactive declarations, block emission (whose assignees
are appended to the variable declarations), and module assembly. -/
def generateModule (d : Document) (analysis : Analysis) : EmittedModule :=
  let (_, code) := genList analysis.willChange d.html ("target") 1
  let sorted := sortRDs analysis.reactiveDeclarations
  { vars := code.vars ++ (sorted.map (fun rd => rd.assignees)).flatten
    create := code.create
    update := code.update
    destroy := code.destroy
    reactiveBlocks := sorted.map mkBlock
    script := rewriteScript d.script analysis.willUseInTemplate
    seed := analysis.willChange
    items := [.script, .seed analysis.willChange, .defineLifecycle] }

/-- State of the emitted batching runtime (src/app.js lines 457-473
and 489-500): the pending change collection `collectChanges`, the
re-entrancy guard `updateCalled`, whether the `var lifecycle`
assignment has executed yet (the hoisted variable is undefined before
that), plus two observation logs: every invocation of
`lifecycle.update` with its argument, and the number of
`update_reactive_declarations` runs. -/
structure MState where
  collectChanges : List String
  updateCalled : Bool
  lifecycleDefined : Bool
  patchCalls : List (List String)
  reactiveRuns : Nat
deriving DecidableEq, Repr

/-- A notification arriving while the guard is set: the emitted
`update` appends the names to the pending collection and returns
before doing anything else (lines 461-464). -/
def guardedNotify (s : MState) (ns : List String) : MState :=
  { s with collectChanges := s.collectChanges ++ ns }

/-- The emitted `update(changed)` entry point (lines 459-473): append
the names; return if the guard is set; otherwise set the guard, run
`update_reactive_declarations` — whose re-entrant notification calls,
modelled by `nested`, all take the guarded early-return path and so
only append — then invoke `lifecycle.update` with the whole
accumulated collection provided the hoisted `lifecycle` variable has
been assigned (`typeof lifecycle !== 'undefined'`), and finally clear
the collection and the guard. -/
def jsUpdate (nested : List (List String)) (s : MState)
    (changed : List String) : MState :=
  let s1 : MState := { s with collectChanges := s.collectChanges ++ changed }
  if s1.updateCalled then s1
  else
    let s2 : MState := { s1 with updateCalled := true }
    let s3 : MState :=
      { nested.foldl guardedNotify s2 with reactiveRuns := s2.reactiveRuns + 1 }
    let s4 : MState :=
      if s3.lifecycleDefined then
        { s3 with patchCalls := s3.patchCalls ++ [s3.collectChanges] }
      else s3
    { s4 with collectChanges := [], updateCalled := false }

/-- Module-body evaluation in emission order: the (rewritten) script
body (modelled as performing no top-level notification of its own),
the seeded initial `update(willChange)` call, then the assignment to
the hoisted `var lifecycle`. -/
def runModule : List ModItem → MState → MState
  | [], s => s
  | .script :: rest, s => runModule rest s
  | .seed wc :: rest, s => runModule rest (jsUpdate [] s wc)
  | .defineLifecycle :: rest, s =>
    runModule rest { s with lifecycleDefined := true }

/-- Runtime state at the start of module evaluation: empty pending
collection, guard clear, `lifecycle` not yet assigned. -/
def initModuleState : MState := ⟨[], false, false, [], 0⟩

/-- Runtime state after module evaluation and `create(target)`: the
lifecycle object exists; pending collection empty, guard clear.  The
observation logs are reset so a burst can be observed in isolation. -/
def afterCreateState : MState := ⟨[], false, true, [], 0⟩

/-! ### The parser (src/app.js lines 67-183)

Embedded over a character list with an explicit cursor.  The host
expression parser (acorn) is an oracle `jsO` mapping a start offset to
the parsed expression and its end offset (`none` models an acorn
syntax error), and `progO` parses a whole script program.  The
mutually recursive productions consume fuel; `POut.out` means the fuel
ran out, so a parse that yields `.out` at every fuel diverges. -/

/-- Cursor state: position and the script recorded so far
(`ast.script`). -/
structure PSt where
  i : Nat
  scr : Option (List JSStmt)

/-- Parse outcome: success with a value and the new state, a thrown
parse error, or fuel exhaustion. -/
inductive POut (α : Type) where
  | ok (a : α) (st : PSt)
  | err (msg : String)
  | out

/-- The `match(str)` helper: the characters at the cursor equal the
literal (shorter tails near the end of input compare unequal, as the
source's slice does). -/
def matchAt (content : List Char) (i : Nat) (s : List Char) : Bool :=
  (content.drop i).take s.length == s

/-- Single-quote character (used to build emitted-string models
without apostrophes in string literals). -/
def sqc : Char := '\''

/-- The message of the error thrown by `eat`. -/
def expectMsg (s : List Char) : String :=
  "Parse error: expecting " ++ "\"" ++ String.mk s ++ "\""

/-- The `eat(str)` helper (lines 166-172): advance past the literal
when it matches, otherwise throw the parse error naming it. -/
def eat (content : List Char) (i : Nat) (s : List Char) : Except String Nat :=
  if matchAt content i s then .ok (i + s.length) else .error (expectMsg s)

/-- Length of the maximal prefix whose characters satisfy the
predicate. -/
def takeCount (p : Char → Bool) : List Char → Nat
  | [] => 0
  | ch :: rest => if p ch then takeCount p rest + 1 else 0

/-- `readWhileMatching(regex)`: new cursor and the matched slice. -/
def readWhileMatching (content : List Char) (p : Char → Bool) (i : Nat) :
    Nat × List Char :=
  let cnt := takeCount p (content.drop i)
  (i + cnt, (content.drop i).take cnt)

/-- The regex `[a-z]`. -/
def isLowerAlpha (ch : Char) : Bool := (('a') ≤ ch) && (ch ≤ ('z'))

/-- The regex `[\s\n]` (whitespace). -/
def isWsChar (ch : Char) : Bool :=
  [(' '), ('\t'), ('\n'), ('\r'), ('\x0b'), ('\x0c')].contains ch

/-- `skipWhitespace()`. -/
def skipWs (content : List Char) (i : Nat) : Nat :=
  (readWhileMatching content isWsChar i).1

/-- First index at or after `i` where the pattern occurs
(`content.indexOf(pat, i)`), `none` when it never occurs. -/
def indexOfFrom (content pat : List Char) (i : Nat) : Option Nat :=
  (List.range (content.length + 1)).find? fun j =>
    decide (i ≤ j) && matchAt content j pat

/-- The loop condition of `parseFragments`: the top-level loop runs
while input remains; an element's child loop runs until its exact
closing tag is matched. -/
inductive Cond where
  | top
  | untilTag (t : List Char)

/-- Evaluation of a loop condition at a cursor. -/
def condHolds (content : List Char) : Cond → Nat → Bool
  | .top, i => decide (i < content.length)
  | .untilTag t, i => !(matchAt content i t)

/-- `parseScript()` (lines 87-97): on `<script>` consume it, take the
text up to the first `</script>`, hand it to the host program parser,
record it as the document script, move to the end index and consume
the closing literal (which matches there by construction).  When no
closing literal exists the source's `indexOf` yields -1 and the
subsequent slice/eat dance throws this same expecting-`</script>`
error.  The function always returns undefined, so the caller falls
through to the next production at the new cursor. -/
def parseScript (content : List Char) (progO : List Char → Option (List JSStmt))
    (st : PSt) : POut Unit :=
  if matchAt content st.i (("<script>").toList) then
    match eat content st.i (("<script>").toList) with
    | .error m => .err m
    | .ok i1 =>
      match indexOfFrom content (("</script>").toList) i1 with
      | some e =>
        let code := (content.drop i1).take (e - i1)
        match progO code with
        | none => .err ("SyntaxError")
        | some prog =>
          match eat content e (("</script>").toList) with
          | .error m => .err m
          | .ok i2 => .ok () ⟨i2, some prog⟩
      | none => .err (expectMsg (("</script>").toList))
  else .ok () st

/-- `parseAttribute()` (lines 125-135): the name is the run of
non-`=` characters, then the literal `={`, a host-parsed expression,
and the closing brace. -/
def parseAttribute (content : List Char) (jsO : Nat → Option (JSExpr × Nat))
    (st : PSt) : POut Attr' :=
  let r := readWhileMatching content (fun ch => !(ch == ('='))) st.i
  match eat content r.1 [('='), ('\x7b')] with
  | .error m => .err m
  | .ok i2 =>
    match jsO i2 with
    | none => .err ("SyntaxError")
    | some (v, iEnd) =>
      match eat content iEnd [('\x7d')] with
      | .error m => .err m
      | .ok i3 => .ok ⟨String.mk r.2, v⟩ ⟨i3, st.scr⟩

/-- `parseExpression()` (lines 136-146): on `{`, a host-parsed
expression wrapped in an Expression node, then `}`. -/
def parseExpressionP (content : List Char) (jsO : Nat → Option (JSExpr × Nat))
    (st : PSt) : POut (Option TNode) :=
  if matchAt content st.i [('\x7b')] then
    match eat content st.i [('\x7b')] with
    | .error m => .err m
    | .ok i1 =>
      match jsO i1 with
      | none => .err ("SyntaxError")
      | some (v, iEnd) =>
        match eat content iEnd [('\x7d')] with
        | .error m => .err m
        | .ok i2 => .ok (some (.expression v)) ⟨i2, st.scr⟩
  else .ok none st

/-- `parseText()` (lines 147-155): the run of characters other than
`<` and `{`; a node results only when the run trims non-empty (the
stored value keeps the original spacing), otherwise undefined is
returned with the cursor already advanced past the run. -/
def parseTextP (content : List Char) (st : PSt) : POut (Option TNode) :=
  let r := readWhileMatching content
    (fun ch => !(ch == ('<')) && !(ch == ('\x7b'))) st.i
  if r.2.any (fun ch => !(isWsChar ch)) then
    .ok (some (.text (String.mk r.2))) ⟨r.1, st.scr⟩
  else .ok none ⟨r.1, st.scr⟩

mutual

/-- `parseFragments(condition)` (lines 74-83): while the condition
holds, parse one fragment and append it when one was produced.  Note
the loop makes no progress demand: a fragment producing nothing and
consuming nothing repeats forever (observable as `.out` at every
fuel). -/
def parseFragments (content : List Char) (jsO : Nat → Option (JSExpr × Nat))
    (progO : List Char → Option (List JSStmt)) :
    Nat → Cond → PSt → POut (List TNode)
  | 0, _, _ => .out
  | fuel + 1, cond, st =>
    if condHolds content cond st.i then
      match parseFragment content jsO progO fuel st with
      | .err m => .err m
      | .out => .out
      | .ok frag st1 =>
        match parseFragments content jsO progO fuel cond st1 with
        | .err m => .err m
        | .out => .out
        | .ok rest st2 =>
          .ok (match frag with | some f => f :: rest | none => rest) st2
    else .ok [] st

/-- `parseFragment()` (lines 84-86): try script, element,
interpolation, text in order; each failed production leaves the
cursor where it was (the script production may consume and still
yield undefined). -/
def parseFragment (content : List Char) (jsO : Nat → Option (JSExpr × Nat))
    (progO : List Char → Option (List JSStmt)) :
    Nat → PSt → POut (Option TNode)
  | 0, _ => .out
  | fuel + 1, st =>
    match parseScript content progO st with
    | .err m => .err m
    | .out => .out
    | .ok _ st1 =>
      match parseElement content jsO progO fuel st1 with
      | .err m => .err m
      | .out => .out
      | .ok (some el) st2 => .ok (some el) st2
      | .ok none st2 =>
        match parseExpressionP content jsO st2 with
        | .err m => .err m
        | .out => .out
        | .ok (some ex) st3 => .ok (some ex) st3
        | .ok none st3 => parseTextP content st3

/-- `parseElement()` (lines 98-115): `<`, a lowercase tag name, the
attribute list, `>`, then child fragments until the exact closing tag
matches, which is then consumed. -/
def parseElement (content : List Char) (jsO : Nat → Option (JSExpr × Nat))
    (progO : List Char → Option (List JSStmt)) :
    Nat → PSt → POut (Option TNode)
  | 0, _ => .out
  | fuel + 1, st =>
    if matchAt content st.i [('<')] then
      match eat content st.i [('<')] with
      | .error m => .err m
      | .ok i1 =>
        let rt := readWhileMatching content isLowerAlpha i1
        match parseAttributeList content jsO fuel ⟨rt.1, st.scr⟩ with
        | .err m => .err m
        | .out => .out
        | .ok attrs st3 =>
          match eat content st3.i [('>')] with
          | .error m => .err m
          | .ok i4 =>
            let endTag := [('<'), ('/')] ++ rt.2 ++ [('>')]
            match parseFragments content jsO progO fuel
                (.untilTag endTag) ⟨i4, st3.scr⟩ with
            | .err m => .err m
            | .out => .out
            | .ok children st5 =>
              match eat content st5.i endTag with
              | .error m => .err m
              | .ok i6 =>
                .ok (some (.element (String.mk rt.2) attrs children))
                  ⟨i6, st5.scr⟩
    else .ok none st

/-- `parseAttributeList()` (lines 116-124): skip whitespace, then
while `>` is not at the cursor, parse an attribute and skip
whitespace. -/
def parseAttributeList (content : List Char) (jsO : Nat → Option (JSExpr × Nat)) :
    Nat → PSt → POut (List Attr')
  | 0, _ => .out
  | fuel + 1, st => attrLoop content jsO fuel ⟨skipWs content st.i, st.scr⟩

/-- The attribute loop body. -/
def attrLoop (content : List Char) (jsO : Nat → Option (JSExpr × Nat)) :
    Nat → PSt → POut (List Attr')
  | 0, _ => .out
  | fuel + 1, st =>
    if matchAt content st.i [('>')] then .ok [] st
    else
      match parseAttribute content jsO st with
      | .err m => .err m
      | .out => .out
      | .ok a st1 =>
        match attrLoop content jsO fuel ⟨skipWs content st1.i, st1.scr⟩ with
        | .err m => .err m
        | .out => .out
        | .ok rest st3 => .ok (a :: rest) st3

end

/-- `parse(content)` (lines 67-73): parse fragments while input
remains; the document owns the recorded script (a document with no
script block leaves `ast.script` unset — modelled as the empty
program, a path no claim exercises) and the fragment list. -/
def parseDoc (content : List Char) (jsO : Nat → Option (JSExpr × Nat))
    (progO : List Char → Option (List JSStmt)) (fuel : Nat) : POut Document :=
  match parseFragments content jsO progO fuel .top ⟨0, none⟩ with
  | .err m => .err m
  | .out => .out
  | .ok html st => .ok ⟨st.scr.getD [], html⟩ st

/-- Compilation outcome: a generated module, a thrown error (nothing
written), or divergence. -/
inductive COut where
  | ok (m : EmittedModule)
  | err (msg : String)
  | out

/-- The top-level pipeline (src/app.js lines 60-65): parse, analyse
(which strips the reactive statements from the script in place),
generate.  A parse error propagates and no module is produced. -/
def compilePipeline (content : List Char) (jsO : Nat → Option (JSExpr × Nat))
    (progO : List Char → Option (List JSStmt)) (fuel : Nat) : COut :=
  match parseDoc content jsO progO fuel with
  | .err m => .err m
  | .out => .out
  | .ok d _ =>
    let analysis := analyseDoc d
    .ok (generateModule { d with script := stripReactive d.script } analysis)

/-! ### Emitted-string model for the Text create instruction -/

/-- The characters the generator splices around a text value (line
315): the binding name, then ` = document.createTextNode('`, the raw
value with no escaping, and `')`. -/
def renderTextCreate (v value : String) : List Char :=
  v.toList ++ (" = document.createTextNode(").toList ++ [sqc]
    ++ value.toList ++ [sqc, (')')]

/-- Escape resolution of the target language's string literals for
the escapes relevant here (unrecognized escapes denote the escaped
character itself). -/
def escapeChar (ch : Char) : Char :=
  if ch == ('n') then ('\n')
  else if ch == ('t') then ('\t')
  else if ch == ('r') then ('\r')
  else ch

/-- Lexing of a single-quoted string literal of the target language,
starting after the opening quote: characters accumulate until an
unescaped closing quote; an unescaped line terminator (LF or CR) is
forbidden in the target language's string literals and makes the
literal a syntax error (`none`), as does running out of input; a
backslash escapes the following character, with an escaped line
terminator acting as a line continuation contributing nothing (the
CRLF pair is not treated specially here; no claim depends on it).
Returns the literal's character content and the remaining input. -/
def lexSQ : List Char → Option (List Char × List Char)
  | [] => none
  | ch :: rest =>
    if ch == sqc then some ([], rest)
    else if ch == ('\n') || ch == ('\r') then none
    else if ch == ('\\') then
      match rest with
      | [] => none
      | e :: rest2 =>
        match lexSQ rest2 with
        | none => none
        | some (cs, r) =>
          if e == ('\n') || e == ('\r') then some (cs, r)
          else some (escapeChar e :: cs, r)
    else
      match lexSQ rest with
      | none => none
      | some (cs, r) => some (ch :: cs, r)

/-- The input from the first single quote on (locating the literal
inside the emitted create statement). -/
def afterFirstQuote : List Char → List Char
  | [] => []
  | ch :: rest => if ch == sqc then rest else afterFirstQuote rest

/-- Content of the string literal found in an emitted statement: what
the target language's lexer reads between the first quote and its
unescaped closing quote. -/
def domTextContent (stmt : List Char) : Option (List Char) :=
  (lexSQ (afterFirstQuote stmt)).map (fun pr => pr.1)

/-! ### Claim C1 -/

/-- C1: in the generated runtime's change-notification routine, a
burst of synchronous mutations inside one call stack produces exactly
one DOM patch sweep.  After create, a mutation notifying `ns1` whose
flush triggers a second mutation notifying `ns2` before any patch
occurs yields exactly one invocation of the lifecycle patch routine,
whose change set holds both mutations' names (the patch reads the
variables' current — hence final — values); and any notification
arriving while the guard is set only appends to the pending
collection and returns. -/
theorem c1_single_patch_sweep :
    (∀ ns1 ns2 : List String,
      (jsUpdate [ns2] afterCreateState ns1).patchCalls = [ns1 ++ ns2] ∧
      (jsUpdate [ns2] afterCreateState ns1).collectChanges = [] ∧
      (jsUpdate [ns2] afterCreateState ns1).updateCalled = false) ∧
    ∀ (nested : List (List String)) (s : MState) (ns : List String),
      s.updateCalled = true → jsUpdate nested s ns = guardedNotify s ns := by
  constructor
  · intro ns1 ns2
    simp [jsUpdate, afterCreateState, guardedNotify]
  · intro nested s ns h
    simp [jsUpdate, guardedNotify, h]

/-- Witness for C1 at concrete inputs. -/
theorem c1_single_patch_sweep_witness :
    (jsUpdate [[("b")]] afterCreateState [("a")]).patchCalls =
      [[("a"), ("b")]] ∧
    (⟨[("x")], true, true, [], 0⟩ : MState).updateCalled = true ∧
    jsUpdate [] ⟨[("x")], true, true, [], 0⟩ [("y")] =
      guardedNotify ⟨[("x")], true, true, [], 0⟩ [("y")] :=
  ⟨(c1_single_patch_sweep.1 [("a")] [("b")]).1, rfl,
   c1_single_patch_sweep.2 [] ⟨[("x")], true, true, [], 0⟩ [("y")] rfl⟩

/-! ### Claim C9 -/

/-- Demonstration document for C9: a counter declared and incremented
in the script, interpolated in the template. -/
def c9Doc : Document :=
  ⟨[.varDecl ("let") ("counter") (.lit 0),
    .varDecl ("const") ("inc") (.arrow [] (.update ("++") (.ident ("counter"))))],
   [.expression (.ident ("counter"))]⟩

/-- C9 counterexample: the emitted module does perform the initial
notification seeded with the full willChange set, and that call runs
the derived-statement recomputation once — but the lifecycle patch
routine is never invoked during module evaluation (the seeded call
executes before the `var lifecycle` assignment, so the typeof guard
skips the patch), refuting the claim that the patch routine is
invoked with the seeded change set. -/
theorem c9_counterexample :
    (generateModule c9Doc (analyseDoc c9Doc)).items =
      [.script, .seed [("counter")], .defineLifecycle] ∧
    (runModule (generateModule c9Doc (analyseDoc c9Doc)).items
      initModuleState).patchCalls = [] ∧
    (runModule (generateModule c9Doc (analyseDoc c9Doc)).items
      initModuleState).reactiveRuns = 1 :=
  ⟨rfl, rfl, rfl⟩

/-- C9 amended: the emitted module performs an initial notification
call seeded with the full willChange set; that call runs the
derived-statement recomputation routine once but does not invoke the
lifecycle patch routine, because it executes before the hoisted
lifecycle variable is assigned and the emitted typeof guard therefore
skips the patch; it leaves the pending collection and guard clear. -/
theorem c9_seeded_init_no_patch :
    (∀ (d : Document) (a : Analysis),
      (generateModule d a).items =
        [.script, .seed a.willChange, .defineLifecycle] ∧
      (generateModule d a).seed = a.willChange) ∧
    ∀ wc : List String,
      runModule [.script, .seed wc, .defineLifecycle] initModuleState =
        ⟨[], false, true, [], 1⟩ := by
  constructor
  · intro d a
    exact ⟨rfl, rfl⟩
  · intro wc
    simp [runModule, jsUpdate, initModuleState]

/-! ### Claim C2 -/

/-- At the exhausted input of the unclosed-element example, one
fragment attempt either runs out of fuel or yields no fragment and
leaves the cursor unchanged. -/
theorem c2aux_frag (jsO : Nat → Option (JSExpr × Nat))
    (progO : List Char → Option (List JSStmt)) :
    ∀ f, parseFragment (("<div>").toList) jsO progO f ⟨5, none⟩ = .out ∨
      parseFragment (("<div>").toList) jsO progO f ⟨5, none⟩ =
        .ok none ⟨5, none⟩ := by
  intro f
  match f with
  | 0 => exact Or.inl rfl
  | 1 => exact Or.inl rfl
  | (g + 2) => exact Or.inr rfl

/-- The child loop of the unclosed `<div>` element makes no progress
at the end of input and exhausts every fuel. -/
theorem c2aux_loop (jsO : Nat → Option (JSExpr × Nat))
    (progO : List Char → Option (List JSStmt)) :
    ∀ f, parseFragments (("<div>").toList) jsO progO f
      (.untilTag (("</div>").toList)) ⟨5, none⟩ = .out := by
  intro f
  induction f with
  | zero => rfl
  | succ g ih =>
    have hc : condHolds (("<div>").toList) (.untilTag (("</div>").toList)) 5 =
        true := rfl
    rcases c2aux_frag jsO progO g with h | h
    · simp only [parseFragments, hc, if_true, h]
    · simp only [parseFragments, hc, if_true, h, ih]

/-- The element production on `<div>` consumes the five characters,
finds an empty attribute list, and then gets stuck in the child loop:
it exhausts every fuel. -/
theorem c2aux_elem (jsO : Nat → Option (JSExpr × Nat))
    (progO : List Char → Option (List JSStmt)) (m : Nat) :
    parseElement (("<div>").toList) jsO progO (m + 3) ⟨0, none⟩ = .out := by
  have h : parseElement (("<div>").toList) jsO progO (m + 3) ⟨0, none⟩ =
      (match parseFragments (("<div>").toList) jsO progO (m + 2)
          (.untilTag (("</div>").toList)) ⟨5, none⟩ with
       | .err e => POut.err e
       | .out => POut.out
       | .ok children st5 =>
         match eat (("<div>").toList) st5.i (("</div>").toList) with
         | .error e => POut.err e
         | .ok i6 =>
           POut.ok (some (TNode.element ("div") [] children)) ⟨i6, st5.scr⟩) :=
    rfl
  rw [c2aux_loop jsO progO (m + 2)] at h
  exact h

/-- One fragment attempt on `<div>` exhausts every fuel (the element
production does). -/
theorem c2aux_frag0 (jsO : Nat → Option (JSExpr × Nat))
    (progO : List Char → Option (List JSStmt)) (m : Nat) :
    parseFragment (("<div>").toList) jsO progO (m + 4) ⟨0, none⟩ = .out := by
  have h : parseFragment (("<div>").toList) jsO progO (m + 4) ⟨0, none⟩ =
      (match parseElement (("<div>").toList) jsO progO (m + 3) ⟨0, none⟩ with
       | .err e1 => POut.err e1
       | .out => POut.out
       | .ok (some el) st2 => POut.ok (some el) st2
       | .ok none st2 =>
         match parseExpressionP (("<div>").toList) jsO st2 with
         | .err e2 => POut.err e2
         | .out => POut.out
         | .ok (some ex) st3 => POut.ok (some ex) st3
         | .ok none st3 => parseTextP (("<div>").toList) st3) := rfl
  rw [c2aux_elem jsO progO m] at h
  exact h

/-- The top-level fragment loop on `<div>` exhausts every fuel of at
least five. -/
theorem c2aux_top (jsO : Nat → Option (JSExpr × Nat))
    (progO : List Char → Option (List JSStmt)) (m : Nat) :
    parseFragments (("<div>").toList) jsO progO (m + 5) .top ⟨0, none⟩ =
      .out := by
  have h : parseFragments (("<div>").toList) jsO progO (m + 5) .top ⟨0, none⟩ =
      (match parseFragment (("<div>").toList) jsO progO (m + 4) ⟨0, none⟩ with
       | .err e => POut.err e
       | .out => POut.out
       | .ok frag st1 =>
         match parseFragments (("<div>").toList) jsO progO (m + 4) .top st1 with
         | .err e => POut.err e
         | .out => POut.out
         | .ok rest st2 =>
           POut.ok (match frag with | some f => f :: rest | none => rest) st2) :=
    rfl
  rw [c2aux_frag0 jsO progO m] at h
  exact h

/-- C2 (code defect): on the input `<div>` — an opened element whose
exact closing tag never appears — the parser neither fails nor
succeeds at any fuel: at the end of input the fragment production
yields nothing and advances nothing while the closing-tag condition
stays true, so `parse` loops forever, and the pipeline likewise never
produces (nor refuses) a module.  The claim (and spec) require a hard
parse failure here instead. -/
theorem c2_unclosed_element_diverges :
    ∀ (jsO : Nat → Option (JSExpr × Nat))
      (progO : List Char → Option (List JSStmt)) (fuel : Nat),
      parseDoc (("<div>").toList) jsO progO fuel = .out ∧
      compilePipeline (("<div>").toList) jsO progO fuel = .out := by
  intro jsO progO fuel
  match fuel with
  | 0 => exact ⟨rfl, rfl⟩
  | 1 => exact ⟨rfl, rfl⟩
  | 2 => exact ⟨rfl, rfl⟩
  | 3 => exact ⟨rfl, rfl⟩
  | 4 => exact ⟨rfl, rfl⟩
  | (m + 5) =>
    have step := c2aux_top jsO progO m
    constructor
    · simp only [parseDoc, step]
    · simp only [compilePipeline, parseDoc, step]

/-! ### Claim C8 -/

/-- C8: whenever a required delimiter is absent at the current cursor
position, the `eat` helper fails with the parse error naming the
expected token (the source throws it with the message
`Parse error: expecting "token"`; the spec's taxonomy labels this
failure SyntaxError), and a parse failure aborts the pipeline: the
error propagates and no module is produced. -/
theorem c8_missing_delimiter_aborts :
    (∀ (content : List Char) (i : Nat) (s : List Char),
      matchAt content i s = false →
      eat content i s = .error (expectMsg s)) ∧
    ∀ (content : List Char) (jsO : Nat → Option (JSExpr × Nat))
      (progO : List Char → Option (List JSStmt)) (fuel : Nat) (msg : String),
      parseDoc content jsO progO fuel = .err msg →
      compilePipeline content jsO progO fuel = .err msg := by
  constructor
  · intro content i s h
    simp [eat, h]
  · intro content jsO progO fuel msg h
    simp [compilePipeline, h]

/-- Witness for C8: the input `<div` reaches the attribute production
at the end of input, where the required `={` is absent; parsing fails
naming that token and the pipeline yields no module. -/
theorem c8_missing_delimiter_aborts_witness :
    matchAt (("<div").toList) 4 [('='), ('\x7b')] = false ∧
    eat (("<div").toList) 4 [('='), ('\x7b')] =
      .error (expectMsg [('='), ('\x7b')]) ∧
    parseDoc (("<div").toList) (fun _ => none) (fun _ => none) 10 =
      .err (expectMsg [('='), ('\x7b')]) ∧
    compilePipeline (("<div").toList) (fun _ => none) (fun _ => none) 10 =
      .err (expectMsg [('='), ('\x7b')]) :=
  ⟨rfl, c8_missing_delimiter_aborts.1 (("<div").toList) 4 [('='), ('\x7b')] rfl,
   rfl, c8_missing_delimiter_aborts.2 (("<div").toList) (fun _ => none)
     (fun _ => none) 10 (expectMsg [('='), ('\x7b')]) rfl⟩

/-! ### Claim C7 -/

/-- First reactive statement of the C7 counterexample script:
`$: a = b + 1`. -/
def c7A : RD :=
  ⟨[("a")], [("b")],
   .exprStmt (.assign (.ident ("a")) (.binop ("+") (.ident ("b")) (.lit 1))), 0⟩

/-- Second reactive statement of the C7 counterexample script:
`$: b = a + 1`. -/
def c7B : RD :=
  ⟨[("b")], [("a")],
   .exprStmt (.assign (.ident ("b")) (.binop ("+") (.ident ("a")) (.lit 1))), 1⟩

/-- The C7 counterexample script: two mutually dependent reactive
statements. -/
def c7Script : List JSStmt :=
  [.labeled ("$") (.exprStmt (.assign (.ident ("a"))
     (.binop ("+") (.ident ("b")) (.lit 1)))),
   .labeled ("$") (.exprStmt (.assign (.ident ("b"))
     (.binop ("+") (.ident ("a")) (.lit 1))))]

/-- C7 counterexample: for the cyclic pair extracted from
`$: a = b + 1; $: b = a + 1`, the emitted routine places the first
statement's block first — yet the second statement's assignee `b`
appears in the first statement's dependency set, so the claim's
requirement (any such pair is ordered dependency-first, here in both
directions at once) is violated by whichever order is emitted. -/
theorem c7_counterexample :
    extractRDs c7Script = [c7A, c7B] ∧
    emitReactive [c7A, c7B] = [mkBlock c7A, mkBlock c7B] ∧
    c7B.assignees.any (fun x => c7A.dependencies.contains x) = true ∧
    c7A.assignees.any (fun x => c7B.dependencies.contains x) = true :=
  ⟨rfl, rfl, rfl, rfl⟩

/-- C7 amended: for two derived statements forming an acyclic
dependency pair — X's assignee appears in Y's dependency set and not
conversely — the emitted recomputation routine contains X's block
strictly before Y's regardless of the order of declaration; when
neither depends on the other, the original source positions break the
tie.  (With a cyclic pair the claimed ordering is unsatisfiable, and
with three or more statements the pairwise comparator is only a
heuristic, per the spec's own open question.) -/
theorem c7_pairwise_dependency_order (X Y : RD)
    (h1 : X.assignees.any (fun a => Y.dependencies.contains a) = true)
    (h2 : Y.assignees.any (fun a => X.dependencies.contains a) = false) :
    (emitReactive [X, Y] = [mkBlock X, mkBlock Y] ∧
     emitReactive [Y, X] = [mkBlock X, mkBlock Y]) ∧
    ∀ (Z W : RD),
      Z.assignees.any (fun a => W.dependencies.contains a) = false →
      W.assignees.any (fun a => Z.dependencies.contains a) = false →
      Z.index ≤ W.index →
      emitReactive [Z, W] = [mkBlock Z, mkBlock W] := by
  have h1' : ∃ x ∈ X.assignees, x ∈ Y.dependencies := by simpa using h1
  have h2' : ¬∃ x ∈ Y.assignees, x ∈ X.dependencies := by simpa using h2
  refine ⟨⟨?_, ?_⟩, ?_⟩
  · simp [emitReactive, sortRDs, List.insertionSort, List.orderedInsert,
      rdCompare, h1', h2']
  · simp [emitReactive, sortRDs, List.insertionSort, List.orderedInsert,
      rdCompare, h1', h2']
  · intro Z W g1 g2 gle
    have g1' : ¬∃ x ∈ Z.assignees, x ∈ W.dependencies := by simpa using g1
    have g2' : ¬∃ x ∈ W.assignees, x ∈ Z.dependencies := by simpa using g2
    have gint : (Z.index : Int) - (W.index : Int) ≤ 0 := by omega
    simp [emitReactive, sortRDs, List.insertionSort, List.orderedInsert,
      rdCompare, g1', g2', gint]

/-- Witness for C7 at concrete inputs: an acyclic pair declared in
reversed source order is still emitted dependency-first, and an
independent pair keeps source order. -/
theorem c7_pairwise_dependency_order_witness :
    emitReactive [⟨[("c")], [("a")], .exprStmt (.lit 0), 0⟩,
                  ⟨[("a")], [], .exprStmt (.lit 1), 1⟩] =
      [mkBlock ⟨[("a")], [], .exprStmt (.lit 1), 1⟩,
       mkBlock ⟨[("c")], [("a")], .exprStmt (.lit 0), 0⟩] ∧
    emitReactive [⟨[("p")], [], .exprStmt (.lit 2), 0⟩,
                  ⟨[("q")], [], .exprStmt (.lit 3), 1⟩] =
      [mkBlock ⟨[("p")], [], .exprStmt (.lit 2), 0⟩,
       mkBlock ⟨[("q")], [], .exprStmt (.lit 3), 1⟩] :=
  ⟨(c7_pairwise_dependency_order
      ⟨[("a")], [], .exprStmt (.lit 1), 1⟩
      ⟨[("c")], [("a")], .exprStmt (.lit 0), 0⟩ rfl rfl).1.2,
   (c7_pairwise_dependency_order
      ⟨[("a")], [], .exprStmt (.lit 1), 1⟩
      ⟨[("c")], [("a")], .exprStmt (.lit 0), 0⟩ rfl rfl).2
      ⟨[("p")], [], .exprStmt (.lit 2), 0⟩
      ⟨[("q")], [], .exprStmt (.lit 3), 1⟩ rfl rfl (Nat.zero_le 1)⟩

/-! ### Claim C3 -/

/-- C3 counterexample script: an assignment to `b`, a free / global
identifier declared nowhere in the script. -/
def c3Script : List JSStmt := [.exprStmt (.assign (.ident ("b")) (.lit 5))]

/-- C3 counterexample: with `b` present in willUseInTemplate but
declared nowhere (a free / global target), the rewrite walk leaves
the script unchanged — no notification call is inserted — because the
generate-pass filter tests only root-scope ownership and, unlike the
analyse-pass willChange test, has no free/global disjunct.  The claim
asserts the node is replaced in exactly this case. -/
theorem c3_counterexample :
    rewriteScript c3Script [("b")] = c3Script ∧
    topLevelDecls c3Script = [] :=
  ⟨rfl, rfl⟩

/-- C3 amended: an increment/decrement node or an assignment node
whose target is declared in the root scope (not merely free/global)
and present in willUseInTemplate is replaced by a sequence performing
the original mutation and then calling the module's notification
entry point with the mutated name — shown for top-level
increment/decrement statements, top-level assignment statements with
an arbitrary right-hand side, and an increment/decrement inside an
arrow function that does not shadow the name — while a free / global
target is left unchanged. -/
theorem c3_root_mutation_rewrite (p : List JSStmt) (wu : List String)
    (op : String) (n : String)
    (hn : n ∈ topLevelDecls p) (hu : n ∈ wu) :
    (∀ k : Nat, p[k]? = some (JSStmt.exprStmt (.update op (.ident n))) →
      (rewriteScript p wu)[k]? =
        some (JSStmt.exprStmt (.seq [.update op (.ident n), updateCall [n]]))) ∧
    (∀ (k : Nat) (rhs : JSExpr),
      p[k]? = some (JSStmt.exprStmt (.assign (.ident n) rhs)) →
      (rewriteScript p wu)[k]? =
        some (JSStmt.exprStmt
          (.seq [.assign (.ident n) rhs, updateCall [n]]))) ∧
    (∀ (k : Nat) (kind f : String) (ps : List String), n ∉ ps →
      p[k]? = some (JSStmt.varDecl kind f (.arrow ps (.update op (.ident n)))) →
      (rewriteScript p wu)[k]? =
        some (JSStmt.varDecl kind f
          (.arrow ps (.seq [.update op (.ident n), updateCall [n]])))) ∧
    ∀ (m : String) (r : Int), m ∉ topLevelDecls p →
      rewriteE wu [topLevelDecls p] (.assign (.ident m) (.lit r)) =
        .assign (.ident m) (.lit r) := by
  have hroot : ownerIsRoot [topLevelDecls p] n = true := by
    simp only [ownerIsRoot]
    simpa using hn
  have hwu : wu.contains n = true := by simpa using hu
  refine ⟨?_, ?_, ?_, ?_⟩
  · intro k hk
    simp [rewriteScript, List.getElem?_map, hk, rewriteStmt, rewriteE,
      extractNamesP, hroot, hwu, hu, List.filter]
  · intro k rhs hk
    simp [rewriteScript, List.getElem?_map, hk, rewriteStmt, rewriteE,
      extractNamesP, hroot, hwu, hu, List.filter]
  · intro k kind f ps hps hk
    have hroot2 : ownerIsRoot (ps :: [topLevelDecls p]) n = true := by
      simp only [ownerIsRoot, if_neg hps]
      simpa using hn
    simp [rewriteScript, List.getElem?_map, hk, rewriteStmt, rewriteE,
      extractNamesP, hroot2, hwu, hu, List.filter]
  · intro m r hm
    have hroot3 : ownerIsRoot [topLevelDecls p] m = false := by
      simp only [ownerIsRoot]
      simpa using hm
    simp [rewriteE, extractNamesP, hroot3]

/-- Witness for C3: a script declaring `counter`, incrementing it at
the top level, assigning it at the top level, and incrementing it
inside an arrow handler, with `counter` in willUseInTemplate. -/
theorem c3_root_mutation_rewrite_witness :
    (rewriteScript
      [.varDecl ("let") ("counter") (.lit 0),
       .exprStmt (.update ("++") (.ident ("counter"))),
       .varDecl ("const") ("inc")
         (.arrow [] (.update ("++") (.ident ("counter")))),
       .exprStmt (.assign (.ident ("counter")) (.lit 7))]
      [("counter")])[1]? =
      some (JSStmt.exprStmt (.seq [.update ("++") (.ident ("counter")),
        updateCall [("counter")]])) ∧
    (rewriteScript
      [.varDecl ("let") ("counter") (.lit 0),
       .exprStmt (.update ("++") (.ident ("counter"))),
       .varDecl ("const") ("inc")
         (.arrow [] (.update ("++") (.ident ("counter")))),
       .exprStmt (.assign (.ident ("counter")) (.lit 7))]
      [("counter")])[3]? =
      some (JSStmt.exprStmt (.seq [.assign (.ident ("counter")) (.lit 7),
        updateCall [("counter")]])) ∧
    (rewriteScript
      [.varDecl ("let") ("counter") (.lit 0),
       .exprStmt (.update ("++") (.ident ("counter"))),
       .varDecl ("const") ("inc")
         (.arrow [] (.update ("++") (.ident ("counter")))),
       .exprStmt (.assign (.ident ("counter")) (.lit 7))]
      [("counter")])[2]? =
      some (JSStmt.varDecl ("const") ("inc")
        (.arrow [] (.seq [.update ("++") (.ident ("counter")),
          updateCall [("counter")]]))) := by
  have h := c3_root_mutation_rewrite
    [.varDecl ("let") ("counter") (.lit 0),
     .exprStmt (.update ("++") (.ident ("counter"))),
     .varDecl ("const") ("inc")
       (.arrow [] (.update ("++") (.ident ("counter")))),
     .exprStmt (.assign (.ident ("counter")) (.lit 7))]
    [("counter")] ("++") ("counter") (by simp [topLevelDecls]) (by simp)
  exact ⟨h.1 1 rfl, h.2.1 3 (.lit 7) rfl,
    h.2.2.1 2 ("const") ("inc") [] (by simp) rfl⟩

/-! ### Claim C4 -/

/-- The identifier/binary fragment of the expression language: the
shapes the file-local extract_names actually recurses through (plus
identifier-free leaves). -/
def binFrag : JSExpr → Bool
  | .ident _ => true
  | .lit _ => true
  | .strlit _ => true
  | .binop _ l r => binFrag l && binFrag r
  | _ => false

/-- The expressions of the template's Expression nodes, in document
order. -/
def exprsOf : List TNode → List JSExpr
  | [] => []
  | .element _ _ children :: rest => exprsOf children ++ exprsOf rest
  | .expression e :: rest => e :: exprsOf rest
  | .text _ :: rest => exprsOf rest

/-- The identifier an attribute contributes to willUseInTemplate. -/
def attrName (a : Attr') : Option String :=
  match a.value with
  | .ident n => some n
  | _ => none

/-- The raw names the analyse template walk feeds into the
willUseInTemplate set, in walk order. -/
def auNames : List TNode → List String
  | [] => []
  | .element _ attrs children :: rest =>
    auNames children ++ attrs.filterMap attrName ++ auNames rest
  | .expression e :: rest => extract_names e ++ auNames rest
  | .text _ :: rest => auNames rest

/-- Membership in a JS-set insertion. -/
theorem mem_twAdd (acc : List String) (x n : String) :
    n ∈ twAdd acc x ↔ n ∈ acc ∨ n = x := by
  unfold twAdd
  split
  · rename_i hx
    constructor
    · exact Or.inl
    · rintro (h | rfl)
      · exact h
      · exact hx
  · simp [List.mem_append]

/-- Membership after folding names into a JS set. -/
theorem mem_foldl_twAdd (l : List String) :
    ∀ (acc : List String) (n : String),
      n ∈ l.foldl twAdd acc ↔ n ∈ acc ∨ n ∈ l := by
  induction l with
  | nil => simp
  | cons x xs ih =>
    intro acc n
    simp only [List.foldl_cons, ih, mem_twAdd, List.mem_cons]
    tauto

/-- Membership after folding attributes into a JS set. -/
theorem mem_foldl_auAttr (attrs : List Attr') :
    ∀ (acc : List String) (n : String),
      n ∈ attrs.foldl auAttr acc ↔ n ∈ acc ∨ n ∈ attrs.filterMap attrName := by
  induction attrs with
  | nil => simp
  | cons a as ih =>
    intro acc n
    have step : auAttr acc a = (attrName a).elim acc (twAdd acc) := by
      unfold auAttr attrName
      cases a.value <;> rfl
    simp only [List.foldl_cons, ih, step, List.filterMap_cons]
    cases h : attrName a with
    | none => simp
    | some m =>
      simp only [Option.elim, mem_twAdd, List.mem_cons]
      tauto

/-- Membership characterization of the analyse template walk. -/
theorem mem_auTemplate :
    ∀ (ts : List TNode) (acc : List String) (n : String),
      n ∈ auTemplate ts acc ↔ n ∈ acc ∨ n ∈ auNames ts
  | [], acc, n => by simp [auTemplate, auNames]
  | .element tag attrs children :: rest, acc, n => by
    simp only [auTemplate, auNames]
    rw [mem_auTemplate rest, mem_foldl_auAttr, mem_auTemplate children]
    simp only [List.mem_append]
    tauto
  | .expression e :: rest, acc, n => by
    simp only [auTemplate, auNames]
    rw [mem_auTemplate rest, mem_foldl_twAdd]
    simp only [List.mem_append]
    tauto
  | .text s :: rest, acc, n => by
    simp only [auTemplate, auNames]
    rw [mem_auTemplate rest]

/-- Inside the identifier/binary fragment, the file-local
extract_names collects exactly the identifiers referenced anywhere in
the expression. -/
theorem binFrag_names : ∀ e : JSExpr, binFrag e = true →
    extract_names e = specIdents e
  | .ident _, _ => rfl
  | .lit _, _ => rfl
  | .strlit _, _ => rfl
  | .binop op l r, h => by
    simp only [binFrag, Bool.and_eq_true] at h
    simp only [extract_names, specIdents,
      binFrag_names l h.1, binFrag_names r h.2]
  | .call f args, h => by simp [binFrag] at h
  | .arrow ps b, h => by simp [binFrag] at h
  | .assign l r, h => by simp [binFrag] at h
  | .update op a, h => by simp [binFrag] at h
  | .seq es, h => by simp [binFrag] at h
  | .array es, h => by simp [binFrag] at h

/-- Names extracted from any template expression land in the walk's
raw name list. -/
theorem names_sub_auNames :
    ∀ (ts : List TNode) (e : JSExpr), e ∈ exprsOf ts →
      ∀ n, n ∈ extract_names e → n ∈ auNames ts
  | [], e, he, n, hn => by simp [exprsOf] at he
  | .element tag attrs children :: rest, e, he, n, hn => by
    simp only [exprsOf, List.mem_append] at he
    simp only [auNames, List.mem_append]
    rcases he with he | he
    · exact Or.inl (Or.inl (names_sub_auNames children e he n hn))
    · exact Or.inr (names_sub_auNames rest e he n hn)
  | .expression e0 :: rest, e, he, n, hn => by
    simp only [exprsOf, List.mem_cons] at he
    simp only [auNames, List.mem_append]
    rcases he with rfl | he
    · exact Or.inl hn
    · exact Or.inr (names_sub_auNames rest e he n hn)
  | .text s :: rest, e, he, n, hn => by
    simp only [exprsOf] at he
    simp only [auNames]
    exact names_sub_auNames rest e he n hn

/-- C4 counterexample: for the template interpolation `{f(x)}` — a
call expression — analyse records nothing in willUseInTemplate, even
though the identifiers `f` and `x` are referenced inside the
expression: the file-local extract_names recurses only through
identifier and binary-expression nodes, so the claim's "every
expression shape" fails. -/
theorem c4_counterexample :
    auTemplate [.expression (.call (.ident ("f")) [.ident ("x")])] [] = [] ∧
    (analyseDoc ⟨[], [.expression (.call (.ident ("f")) [.ident ("x")])]⟩
      ).willUseInTemplate = [] ∧
    specIdents (.call (.ident ("f")) [.ident ("x")]) = [("f"), ("x")] := by
  refine ⟨?_, ?_, rfl⟩
  · simp [auTemplate, extract_names]
  · simp [analyseDoc, auTemplate, extract_names]

/-- C4 amended: after analysis, willUseInTemplate contains every
identifier referenced anywhere inside each template interpolation's
expression provided the expression is built from identifiers,
literals and binary expressions (the shapes the file-local
extract_names traverses); identifiers nested under any other node
shape are not collected. -/
theorem c4_willUseInTemplate_binop_complete (ts : List TNode)
    (hfrag : ∀ e ∈ exprsOf ts, binFrag e = true) :
    ∀ n, (∃ e ∈ exprsOf ts, n ∈ specIdents e) → n ∈ auTemplate ts [] ∧
      n ∈ (analyseDoc ⟨[], ts⟩).willUseInTemplate := by
  intro n hex
  obtain ⟨e, he, hn⟩ := hex
  rw [← binFrag_names e (hfrag e he)] at hn
  have hmem : n ∈ auNames ts := names_sub_auNames ts e he n hn
  have h1 : n ∈ auTemplate ts [] := by
    rw [mem_auTemplate]
    exact Or.inr hmem
  exact ⟨h1, by simpa [analyseDoc] using h1⟩

/-- Witness for C4: the template `<div>{counter * 2}</div>`. -/
theorem c4_willUseInTemplate_binop_complete_witness :
    ("counter") ∈ auTemplate
      [.element ("div") []
        [.expression (.binop ("*") (.ident ("counter")) (.lit 2))]] [] :=
  (c4_willUseInTemplate_binop_complete
    [.element ("div") []
      [.expression (.binop ("*") (.ident ("counter")) (.lit 2))]]
    (by intro e he; simp [exprsOf] at he; subst he; rfl)
    ("counter")
    ⟨.binop ("*") (.ident ("counter")) (.lit 2), by simp [exprsOf],
      by simp [specIdents]⟩).1

/-! ### Claim C5 -/

/-- Recognizer for one specific add-listener instruction. -/
def isAddL (p e h : String) : Instr → Bool
  | .addListener p' e' h' => p == p' && e == e' && h == h'
  | _ => false

/-- Recognizer for one specific remove-listener instruction. -/
def isRemL (p e h : String) : Instr → Bool
  | .removeListener p' e' h' => p == p' && e == e' && h == h'
  | _ => false

/-- The create/destroy pairing invariant of generated code: every
specific listener registration is matched by exactly as many
unregistrations of the same target, event and handler; every created
element is appended to some parent and removed from that same parent
at destroy; and every removal corresponds to an append. -/
def C5Inv (co : Code) : Prop :=
  (∀ p e h, co.create.countP (isAddL p e h) = co.destroy.countP (isRemL p e h)) ∧
  (∀ v tag, Instr.createElement v tag ∈ co.create →
    ∃ pr, Instr.appendChild pr v ∈ co.create ∧
      Instr.removeChild pr v ∈ co.destroy) ∧
  (∀ pr v, Instr.removeChild pr v ∈ co.destroy →
    Instr.appendChild pr v ∈ co.create)

/-- The empty contribution satisfies the pairing invariant. -/
theorem C5Inv_nil : C5Inv Code.nil := by
  refine ⟨fun p e h => rfl, ?_, ?_⟩ <;> simp [Code.nil]

/-- The pairing invariant is closed under concatenation of
contributions. -/
theorem C5Inv_append {a b : Code} (ha : C5Inv a) (hb : C5Inv b) :
    C5Inv (a.append b) := by
  obtain ⟨ha1, ha2, ha3⟩ := ha
  obtain ⟨hb1, hb2, hb3⟩ := hb
  refine ⟨?_, ?_, ?_⟩
  · intro p e h
    simp [Code.append, List.countP_append, ha1, hb1]
  · intro v tag hmem
    simp only [Code.append, List.mem_append] at hmem
    rcases hmem with hmem | hmem
    · obtain ⟨pr, h1, h2⟩ := ha2 v tag hmem
      exact ⟨pr, by simp [Code.append, List.mem_append, h1],
        by simp [Code.append, List.mem_append, h2]⟩
    · obtain ⟨pr, h1, h2⟩ := hb2 v tag hmem
      exact ⟨pr, by simp [Code.append, List.mem_append, h1],
        by simp [Code.append, List.mem_append, h2]⟩
  · intro pr v hmem
    simp only [Code.append, List.mem_append] at hmem
    simp only [Code.append, List.mem_append]
    rcases hmem with hmem | hmem
    · exact Or.inl (ha3 pr v hmem)
    · exact Or.inr (hb3 pr v hmem)

/-- The contribution of one attribute satisfies the pairing
invariant: an event binding registers and unregisters the same
target, event and handler; anything else contributes nothing. -/
theorem C5Inv_genAttr (parent : String) (a : Attr') :
    C5Inv (genAttr parent a) := by
  unfold genAttr
  split
  · refine ⟨?_, ?_, ?_⟩
    · intro p e h
      simp [List.countP_cons, isAddL, isRemL]
    · intro v tag hmem
      simp [List.mem_cons] at hmem
    · intro pr v hmem
      simp [List.mem_cons] at hmem
  · exact C5Inv_nil

/-- The attribute fold preserves the pairing invariant. -/
theorem C5Inv_attrs (parent : String) (attrs : List Attr') :
    ∀ acc : Code, C5Inv acc →
      C5Inv (attrs.foldl (fun co a => co.append (genAttr parent a)) acc) := by
  induction attrs with
  | nil => intro acc h; exact h
  | cons a as ih =>
    intro acc h
    exact ih _ (C5Inv_append h (C5Inv_genAttr parent a))

/-- The element contribution preserves the pairing invariant over its
attribute and child contributions. -/
theorem C5Inv_element (parent v tag : String) {aCode chCode : Code}
    (ha : C5Inv aCode) (hch : C5Inv chCode) :
    C5Inv ⟨v :: aCode.vars ++ chCode.vars,
      .createElement v tag :: (aCode.create ++ chCode.create)
        ++ [.appendChild parent v],
      aCode.update ++ chCode.update,
      (aCode.destroy ++ chCode.destroy) ++ [.removeChild parent v]⟩ := by
  obtain ⟨ha1, ha2, ha3⟩ := ha
  obtain ⟨hch1, hch2, hch3⟩ := hch
  refine ⟨?_, ?_, ?_⟩
  · intro p e h
    simp [List.countP_append, List.countP_cons, isAddL, isRemL, ha1 p e h,
      hch1 p e h]
  · intro v' tag' hmem
    simp only [List.mem_cons, List.mem_append, List.mem_singleton] at hmem
    rcases hmem with (hmem | hmem | hmem) | hmem
    · injection hmem with hv ht
      subst hv
      refine ⟨parent, ?_, ?_⟩ <;>
        simp [List.mem_cons, List.mem_append]
    · obtain ⟨pr, h1, h2⟩ := ha2 v' tag' hmem
      exact ⟨pr, by simp [List.mem_cons, List.mem_append, h1],
        by simp [List.mem_append, h2]⟩
    · obtain ⟨pr, h1, h2⟩ := hch2 v' tag' hmem
      exact ⟨pr, by simp [List.mem_cons, List.mem_append, h1],
        by simp [List.mem_append, h2]⟩
    · simp at hmem
  · intro pr v' hmem
    simp only [List.mem_append, List.mem_singleton] at hmem
    rcases hmem with (hmem | hmem) | hmem
    · have h1 := ha3 pr v' hmem
      simp [List.mem_cons, List.mem_append, h1]
    · have h1 := hch3 pr v' hmem
      simp [List.mem_cons, List.mem_append, h1]
    · injection hmem with hp hv
      subst hp
      subst hv
      simp [List.mem_cons, List.mem_append]

/-- The whole template walk satisfies the pairing invariant. -/
theorem C5Inv_genList :
    ∀ (wc : List String) (ts : List TNode) (parent : String) (c : Nat),
      C5Inv (genList wc ts parent c).2
  | wc, [], parent, c => by
    simp only [genList]
    exact C5Inv_nil
  | wc, .element tag attrs children :: rest, parent, c => by
    have hattrs := C5Inv_attrs (tag ++ "_" ++ toString c) attrs Code.nil C5Inv_nil
    have hch := C5Inv_genList wc children (tag ++ "_" ++ toString c) (c + 1)
    have hrest := C5Inv_genList wc rest parent
      (genList wc children (tag ++ "_" ++ toString c) (c + 1)).1
    simp only [genList]
    exact C5Inv_append
      (C5Inv_element parent (tag ++ "_" ++ toString c) tag hattrs hch) hrest
  | wc, .text s :: rest, parent, c => by
    have hrest := C5Inv_genList wc rest parent (c + 1)
    simp only [genList]
    refine C5Inv_append ⟨?_, ?_, ?_⟩ hrest
    · intro p e h
      simp [List.countP_cons, isAddL, isRemL]
    · intro v tag hmem
      simp [List.mem_cons] at hmem
    · intro pr v hmem
      simp at hmem
  | wc, .expression e :: rest, parent, c => by
    have hrest := C5Inv_genList wc rest parent (c + 1)
    simp only [genList]
    refine C5Inv_append ⟨?_, ?_, ?_⟩ hrest
    · intro p ev h
      simp [List.countP_cons, isAddL, isRemL]
    · intro v tag hmem
      simp [List.mem_cons] at hmem
    · intro pr v hmem
      simp at hmem

/-- C5 counterexample: for the template consisting of the single
top-level text node `hi`, create attaches a DOM text node to the
mount target but destroy is empty — destroy() does not detach every
DOM node that create attached to the mount target. -/
theorem c5_counterexample :
    (genList [] [.text ("hi")] ("target") 1).2.destroy = [] ∧
    Instr.appendChild ("target") ("txt_1") ∈
      (genList [] [.text ("hi")] ("target") 1).2.create := by
  constructor
  · simp [genList, Code.append, Code.nil]
  · simp [genList, Code.append, Code.nil]
    decide

/-- C5 amended: destroy() detaches every Element node created — each
created element has an append to some parent at create and a removal
from that same parent at destroy, and every removal corresponds to an
append — and unregisters exactly as many listeners per (target,
event, handler) triple as create registers; in particular an
`on:click` binding emits a destroy instruction unregistering exactly
the event type and handler reference registered at create time.
Text and Expression nodes receive no detach instruction. -/
theorem c5_destroy_detach_unregister :
    (∀ (wc : List String) (ts : List TNode) (parent : String) (c : Nat),
      (∀ p e h, ((genList wc ts parent c).2.create).countP (isAddL p e h) =
        ((genList wc ts parent c).2.destroy).countP (isRemL p e h)) ∧
      (∀ v tag,
        Instr.createElement v tag ∈ (genList wc ts parent c).2.create →
        ∃ pr, Instr.appendChild pr v ∈ (genList wc ts parent c).2.create ∧
          Instr.removeChild pr v ∈ (genList wc ts parent c).2.destroy) ∧
      (∀ pr v,
        Instr.removeChild pr v ∈ (genList wc ts parent c).2.destroy →
        Instr.appendChild pr v ∈ (genList wc ts parent c).2.create)) ∧
    ∀ (parent handler : String),
      genAttr parent ⟨("on:click"), .ident handler⟩ =
        ⟨[], [.addListener parent ("click") handler], [],
         [.removeListener parent ("click") handler]⟩ := by
  constructor
  · intro wc ts parent c
    exact C5Inv_genList wc ts parent c
  · intro parent handler
    have hev : String.mk ((("on:click").toList).drop 3) = ("click") := by decide
    simp [genAttr, hev, onPrefix]

/-- Demonstration template for the C5 witness: a button with a click
binding. -/
def c5Demo : List TNode :=
  [.element ("button") [⟨("on:click"), .ident ("handler")⟩] []]

/-- Witness for C5 at the concrete button template. -/
theorem c5_destroy_detach_unregister_witness :
    (∃ pr, Instr.appendChild pr ("button_1") ∈
        (genList [] c5Demo ("target") 1).2.create ∧
      Instr.removeChild pr ("button_1") ∈
        (genList [] c5Demo ("target") 1).2.destroy) ∧
    ((genList [] c5Demo ("target") 1).2.create).countP
        (isAddL ("button_1") ("click") ("handler")) =
      ((genList [] c5Demo ("target") 1).2.destroy).countP
        (isRemL ("button_1") ("click") ("handler")) ∧
    genAttr ("button_1") ⟨("on:click"), .ident ("handler")⟩ =
      ⟨[], [.addListener ("button_1") ("click") ("handler")], [],
       [.removeListener ("button_1") ("click") ("handler")]⟩ :=
  ⟨(c5_destroy_detach_unregister.1 [] c5Demo ("target") 1).2.1
      ("button_1") ("button")
      (by
        have hb : ("button_" ++ toString 1) = ("button_1") := by decide
        simp [c5Demo, genList, genAttr, Code.append, Code.nil, onPrefix, hb]),
   (c5_destroy_detach_unregister.1 [] c5Demo ("target") 1).1
      ("button_1") ("click") ("handler"),
   c5_destroy_detach_unregister.2 ("button_1") ("handler")⟩

/-! ### Claim C6 -/

/-- Guard and expression carried by an update instruction. -/
def guardData : Instr → Option (Guard × JSExpr)
  | .updateIf g _ e => some (g, e)
  | _ => none

/-- The guard the Expression case is specified to emit for an
expression: when some extracted name is in willChange, the guard over
the deduplicated extracted names that are in willChange, else
nothing. -/
def expectedGD (wc : List String) (e : JSExpr) : Option (Guard × JSExpr) :=
  if (extract_names e).any (fun n => wc.contains n) then
    some (mkGuard (insOrderDedup ((extract_names e).filter fun n =>
      wc.contains n)), e)
  else none

/-- Attribute contributions carry no update instruction. -/
theorem genAttr_update (parent : String) (a : Attr') :
    (genAttr parent a).update = [] := by
  unfold genAttr
  split <;> rfl

/-- The attribute fold contributes no update instruction. -/
theorem attrs_update_nil (parent : String) (attrs : List Attr') :
    ∀ acc : Code,
      (attrs.foldl (fun co a => co.append (genAttr parent a)) acc).update =
        acc.update := by
  induction attrs with
  | nil => intro acc; rfl
  | cons a as ih =>
    intro acc
    rw [List.foldl_cons, ih]
    simp [Code.append, genAttr_update]

/-- Update projection of a concatenation. -/
theorem Code.append_update (a b : Code) :
    (a.append b).update = a.update ++ b.update := rfl

/-- The emitted update instructions correspond one-to-one, in
document order, to the template expressions whose extracted names
meet willChange, each carrying the guard over exactly the
deduplicated intersection. -/
theorem c6_update_correspondence :
    ∀ (wc : List String) (ts : List TNode) (parent : String) (c : Nat),
      ((genList wc ts parent c).2.update).filterMap guardData =
        (exprsOf ts).filterMap (expectedGD wc)
  | wc, [], parent, c => by
    simp [genList, Code.nil, exprsOf]
  | wc, .element tag attrs children :: rest, parent, c => by
    have hch := c6_update_correspondence wc children
      (tag ++ "_" ++ toString c) (c + 1)
    have hrest := c6_update_correspondence wc rest parent
      (genList wc children (tag ++ "_" ++ toString c) (c + 1)).1
    have hattrs := attrs_update_nil (tag ++ "_" ++ toString c) attrs Code.nil
    simp only [genList, exprsOf, Code.append_update]
    rw [hattrs]
    simp [Code.nil, List.filterMap_append, hch, hrest]
  | wc, .text s :: rest, parent, c => by
    have hrest := c6_update_correspondence wc rest parent (c + 1)
    simp only [genList, exprsOf, Code.append_update]
    simp [List.filterMap_append, hrest]
  | wc, .expression e :: rest, parent, c => by
    have hrest := c6_update_correspondence wc rest parent (c + 1)
    simp only [genList, exprsOf, Code.append_update]
    rw [List.filterMap_append, hrest, List.filterMap_cons]
    unfold expectedGD
    split
    · rename_i hcond
      simp [hcond, guardData]
    · rename_i hcond
      simp only [Bool.not_eq_true] at hcond
      simp [hcond, guardData]

/-- Every emitted update instruction is a guarded reassignment. -/
theorem c6_update_shape :
    ∀ (wc : List String) (ts : List TNode) (parent : String) (c : Nat),
      ∀ i ∈ (genList wc ts parent c).2.update,
        ∃ g v e, i = Instr.updateIf g v e
  | wc, [], parent, c => by
    simp [genList, Code.nil]
  | wc, .element tag attrs children :: rest, parent, c => by
    intro i hi
    simp only [genList, Code.append_update,
      attrs_update_nil (tag ++ "_" ++ toString c) attrs Code.nil,
      List.mem_append] at hi
    rcases hi with (hi | hi) | hi
    · simp [Code.nil] at hi
    · exact c6_update_shape wc children (tag ++ "_" ++ toString c) (c + 1) i hi
    · exact c6_update_shape wc rest parent
        (genList wc children (tag ++ "_" ++ toString c) (c + 1)).1 i hi
  | wc, .text s :: rest, parent, c => by
    intro i hi
    simp only [genList, Code.append_update, List.nil_append,
      List.mem_append] at hi
    exact c6_update_shape wc rest parent (c + 1) i hi
  | wc, .expression e :: rest, parent, c => by
    intro i hi
    simp only [genList, Code.append_update, List.mem_append] at hi
    rcases hi with hi | hi
    · split at hi
      · simp only [List.mem_singleton] at hi
        exact ⟨_, _, _, hi⟩
      · simp at hi
    · exact c6_update_shape wc rest parent (c + 1) i hi

/-- The single-dependency guard form and the multi-dependency any-of
form denote the same membership test. -/
theorem c6_guard_semantics :
    ∀ (S changed : List String), S ≠ [] →
      guardHolds (mkGuard S) changed = S.any fun n => changed.contains n := by
  intro S changed h
  match S with
  | [x] => simp [mkGuard, guardHolds]
  | x :: y :: tl => simp [mkGuard, guardHolds]

/-- C6 counterexample: the interpolation `{a + b()}` references the
identifiers `a` and `b`, and with willChange containing `b` the
claimed intersection is nonempty — yet no update instruction is
emitted, because the generator collects names through the limited
extract_names (identifier/binary spines only), which misses `b`
under the call node. -/
theorem c6_counterexample :
    (genList [("b")]
      [.expression (.binop ("+") (.ident ("a")) (.call (.ident ("b")) []))]
      ("target") 1).2.update = [] ∧
    specIdents (.binop ("+") (.ident ("a")) (.call (.ident ("b")) [])) =
      [("a"), ("b")] ∧
    extract_names (.binop ("+") (.ident ("a")) (.call (.ident ("b")) [])) =
      [("a")] := by
  refine ⟨?_, rfl, rfl⟩
  simp [genList, Code.append, Code.nil, extract_names]

/-- C6 amended: for every template Expression node whose
extract_names-collected identifiers (identifier/binary-expression
spines) intersect willChange, the emitted update instruction's guard
is over exactly the deduplicated intersection of those collected
names with willChange; nodes whose collected names are disjoint from
willChange emit no update instruction; every update instruction is
such a guarded reassignment; and the single-dependency guard form is
semantically the degenerate case of the any-of membership test. -/
theorem c6_guard_exact_intersection :
    (∀ (wc : List String) (ts : List TNode) (parent : String) (c : Nat),
      ((genList wc ts parent c).2.update).filterMap guardData =
        (exprsOf ts).filterMap (expectedGD wc)) ∧
    (∀ (wc : List String) (ts : List TNode) (parent : String) (c : Nat),
      ∀ i ∈ (genList wc ts parent c).2.update,
        ∃ g v e, i = Instr.updateIf g v e) ∧
    ∀ (S changed : List String), S ≠ [] →
      guardHolds (mkGuard S) changed = S.any fun n => changed.contains n :=
  ⟨c6_update_correspondence, c6_update_shape, c6_guard_semantics⟩

/-- Witness for C6 at concrete inputs: the counter template emits one
single-dependency guard, and both guard forms agree on concrete
change sets. -/
theorem c6_guard_exact_intersection_witness :
    ((genList [("counter")]
        [.expression (.ident ("counter"))] ("target") 1).2.update).filterMap
        guardData =
      [(Guard.single ("counter"), JSExpr.ident ("counter"))] ∧
    guardHolds (mkGuard [("counter")]) [("counter")] =
      [("counter")].any fun n => [("counter")].contains n :=
  ⟨by
    have h := c6_guard_exact_intersection.1 [("counter")]
      [.expression (.ident ("counter"))] ("target") 1
    rw [h]
    simp [exprsOf, expectedGD, extract_names, insOrderDedup, twAdd, mkGuard],
   c6_guard_exact_intersection.2.2 [("counter")] [("counter")]
     (by simp)⟩

/-! ### Claim C10 -/

/-- Skipping a quote-free prefix leaves the quote search in the
suffix. -/
theorem afterFirstQuote_append (a b : List Char)
    (ha : ∀ ch ∈ a, ¬ch = sqc) :
    afterFirstQuote (a ++ b) = afterFirstQuote b := by
  induction a with
  | nil => rfl
  | cons x xs ih =>
    have hx : (x == sqc) = false := by
      simpa using ha x (by simp)
    simp only [List.cons_append, afterFirstQuote, hx, Bool.false_eq_true,
      if_false]
    exact ih fun ch hch => ha ch (by simp [hch])

/-- Lexing a single-quoted literal whose content has no quote, no
backslash and no raw line terminator consumes exactly the content. -/
theorem lexSQ_plain (v : List Char) (r : List Char)
    (hv : ∀ ch ∈ v, ¬ch = sqc ∧ ¬ch = ('\\') ∧ ¬ch = ('\n') ∧ ¬ch = ('\r')) :
    lexSQ (v ++ sqc :: r) = some (v, r) := by
  induction v with
  | nil =>
    rw [List.nil_append, lexSQ.eq_def]
    simp
  | cons x xs ih =>
    have h1 : (x == sqc) = false := by
      simpa using (hv x (by simp)).1
    have h2 : (x == ('\\')) = false := by
      simpa using (hv x (by simp)).2.1
    have h3 : (x == ('\n')) = false := by
      simpa using (hv x (by simp)).2.2.1
    have h4 : (x == ('\r')) = false := by
      simpa using (hv x (by simp)).2.2.2
    have hrec := ih fun ch hch => hv ch (by simp [hch])
    rw [List.cons_append, lexSQ.eq_def]
    simp only [h1, h2, h3, h4, Bool.or_self, Bool.false_eq_true, if_false,
      Bool.false_or, Bool.or_false]
    rw [hrec]

/-- C10 counterexample: the parsed text value holding a raw line
feed satisfies the claim's precondition (it contains no single quote
and no backslash, and the text production accepts it), yet the
emitted create statement is not a well-formed string literal of the
target language — raw line terminators are forbidden inside string
literals — so no DOM text node with that content is constructed: the
claimed equality fails. -/
theorem c10_counterexample :
    (∀ ch ∈ (String.mk [('a'), ('\n'), ('b')]).toList,
      ¬ch = sqc ∧ ¬ch = ('\\')) ∧
    domTextContent
      (renderTextCreate ("txt_1") (String.mk [('a'), ('\n'), ('b')])) =
      none := by
  constructor
  · decide
  · decide

/-- C10 amended: for every parsed Text node whose value contains no
single quote, no backslash and no raw line terminator (and a
generated binding name without quotes, as `txt_i` always is), the
emitted create instruction splices the raw value between single
quotes with no escaping, and the target language's lexer reads back
exactly the parsed value as the DOM text node's content; the Text
case emits exactly the create-text and append instructions.  A value
containing a raw line terminator meets the claim's original
precondition but makes the emitted statement syntactically invalid,
so the line-terminator exclusion is needed. -/
theorem c10_text_literal_splice (vname value parent : String)
    (c : Nat) (wc : List String)
    (hval : ∀ ch ∈ value.toList,
      ¬ch = sqc ∧ ¬ch = ('\\') ∧ ¬ch = ('\n') ∧ ¬ch = ('\r'))
    (hv : ∀ ch ∈ vname.toList, ¬ch = sqc) :
    domTextContent (renderTextCreate vname value) = some value.toList ∧
    (genList wc [.text value] parent c).2.create =
      [.createTextLit ("txt_" ++ toString c) value,
       .appendChild parent ("txt_" ++ toString c)] := by
  constructor
  · have hpre : ∀ ch ∈ (" = document.createTextNode(").toList, ¬ch = sqc := by
      decide
    have hassoc : renderTextCreate vname value =
        vname.toList ++ ((" = document.createTextNode(").toList ++
          (sqc :: (value.toList ++ [sqc, (')')]))) := by
      simp [renderTextCreate, List.append_assoc]
    unfold domTextContent
    rw [hassoc, afterFirstQuote_append _ _ hv, afterFirstQuote_append _ _ hpre]
    have hq : afterFirstQuote (sqc :: (value.toList ++ [sqc, (')')])) =
        value.toList ++ [sqc, (')')] := by
      simp [afterFirstQuote]
    rw [hq]
    have hsh : value.toList ++ [sqc, (')')] = value.toList ++ sqc :: [(')')] :=
      rfl
    rw [hsh, lexSQ_plain value.toList [(')')] hval]
    rfl
  · simp [genList, Code.append, Code.nil]

/-- Witness for C10: the text value `Decrement` of the sample
component. -/
theorem c10_text_literal_splice_witness :
    domTextContent (renderTextCreate ("txt_2") ("Decrement")) =
      some (("Decrement").toList) ∧
    (genList [] [.text ("Decrement")] ("button_1") 2).2.create =
      [.createTextLit ("txt_" ++ toString 2) ("Decrement"),
       .appendChild ("button_1") ("txt_" ++ toString 2)] :=
  c10_text_literal_splice ("txt_2") ("Decrement") ("button_1") 2 []
    (by decide) (by decide)
